import Mathlib

/-!
# Verification of the DMOJ judge tracer core (`dmoj/cptbox/tracer.py`)

A shallow embedding of the supervisor (`TracedPopen`), the debugger façade
(`AdvancedDebugger`), the policy installation loop, the seccomp whitelist
builder, the watchdog ("shocker") worker, and the result-flag derivations,
together with theorems settling the specification's claims about them.

Conventions of the embedding:
* Python dictionaries keyed by canonical syscall id become functions
  `Nat → Option _`; `dict.get k default` becomes `(f k).getD default`.
* The translation table `translator` (from `dmoj.cptbox.syscalls`, outside
  the embedded sources) is an abstract parameter
  `translator : Nat → Nat → List (Option Nat)`:
  canonical id → ABI index → list of native numbers (entries may be `none`,
  mirroring the `if call is None: continue` guard in the loops).
* Machine integers are `Int`/`Nat` with explicit masking (`% 2 ^ 32`) where
  the source masks.
* Fallible Python code returns `Except`; a raised exception is `.error`.
-/

namespace Cptbox

/-- The closed ABI enumeration (`PTBOX_ABI_*`). -/
inductive ABI where
  | x86
  | x64
  | x32
  | arm
  | arm64
  | freebsd_x64
  | invalid
  deriving DecidableEq, Repr

/-- `_SYSCALL_INDICIES`: index of each ABI into the translation table;
`PTBOX_ABI_INVALID` has no index (`None` in the source). -/
def syscallIndex : ABI → Option Nat
  | .x86 => some 0
  | .x64 => some 1
  | .x32 => some 2
  | .arm => some 3
  | .freebsd_x64 => some 4
  | .arm64 => some 5
  | .invalid => none

/-- `_address_bits`: address width of each ABI; the source uses
`_address_bits.get(abi)`, which yields `None` for the invalid ABI. -/
def addressBits : ABI → Option Nat
  | .x86 => some 32
  | .x64 => some 64
  | .x32 => some 32
  | .arm => some 32
  | .arm64 => some 64
  | .freebsd_x64 => some 64
  | .invalid => none

/-- Modelled from the spec: the handler constant `ALLOW` exported by
`dmoj.cptbox.handlers` (that module is outside the embedded sources); an
opaque integer tag meaning "allow without a ptrace policy decision". -/
def ALLOW : Int := 0

/-- Modelled from the spec: the handler constant `DISALLOW` from
`dmoj.cptbox.handlers`; distinct from `ALLOW`, meaning "deny". -/
def DISALLOW : Int := 1

/-- Modelled from the spec: the handler constant `_CALLBACK` from
`dmoj.cptbox.handlers`; distinct from both, meaning "defer to the Python
callback table". -/
def CALLBACK : Int := 2

/-- A Python value supplied as a handler in the `security` map.  The
source distinguishes exactly: `isinstance(handler, int)`, `callable(handler)`,
and (implicitly, through `'Handler not callable: ' + handler`) whether the
value is a string; everything else behaves like `other`. -/
inductive PyHandler (Dbg : Type) where
  | int (n : Int)
  | callable (f : Dbg → Bool)
  | strVal (s : String)
  | other

/-- Exceptions the policy-installation loop can raise. -/
inductive PyError where
  | valueError (msg : String)
  | typeError
  deriving DecidableEq, Repr

/-- The per-ABI callback table `self._callbacks` (row `abi`, column native
syscall number).  In the source it is a list of `MAX_SYSCALL_NUMBER`-long
lists initialised to `None`; we embed it as a function and carry the bound
separately where indexing matters. -/
def CbTable (Dbg : Type) := ABI → Nat → Option (Dbg → Bool)

/-- The all-`None` initial callback table. -/
def emptyCb (Dbg : Type) : CbTable Dbg := fun _ _ => none

/-- Write `self._callbacks[abi][call] = f`. -/
def cbUpdate {Dbg : Type} (tbl : CbTable Dbg) (abi : ABI) (c : Nat) (f : Dbg → Bool) :
    CbTable Dbg :=
  fun a n => if a = abi ∧ n = c then some f else tbl a n

/-- One iteration of the innermost loop of `TracedPopen.__init__`
(lines 143–152): `for call in translator[i][index]`.  A `None` entry is
skipped; an `int` handler goes to the C-side `_handler` (leaving the Python
callback table unchanged); a callable is recorded in the callback table; any
other value reaches `raise ValueError('Handler not callable: ' + handler)`,
whose string concatenation itself raises `TypeError` unless the handler is a
string. -/
def installCall {Dbg : Type} (handler : PyHandler Dbg) (abi : ABI)
    (tbl : CbTable Dbg) (call? : Option Nat) : Except PyError (CbTable Dbg) :=
  match call? with
  | none => .ok tbl
  | some call =>
    match handler with
    | .int _ => .ok tbl
    | .callable f => .ok (cbUpdate tbl abi call f)
    | .strVal s => .error (.valueError ("Handler not callable: " ++ s))
    | .other => .error .typeError

/-- One iteration of the middle loop (`for i in range(SYSCALL_COUNT)`):
fetch `security.get(i, DISALLOW)` and process every native number of
canonical `i` on this ABI. -/
def installCanonical {Dbg : Type} (security : Nat → Option (PyHandler Dbg))
    (translator : Nat → Nat → List (Option Nat)) (abi : ABI)
    (tbl : CbTable Dbg) (i : Nat) : Except PyError (CbTable Dbg) :=
  let handler := (security i).getD (.int DISALLOW)
  (translator i ((syscallIndex abi).getD 6)).foldlM (installCall handler abi) tbl

/-- The policy-installation loop of `TracedPopen.__init__` (lines 140–152):
`for abi in SUPPORTED_ABIS: for i in range(SYSCALL_COUNT): ...`, producing
the Python callback table (the C-side dense handler table is updated through
`self._handler`, outside the embedded sources). -/
def installPolicy {Dbg : Type} (abis : List ABI) (SYSCALL_COUNT : Nat)
    (security : Nat → Option (PyHandler Dbg))
    (translator : Nat → Nat → List (Option Nat)) : Except PyError (CbTable Dbg) :=
  abis.foldlM
    (fun tbl abi =>
      (List.range SYSCALL_COUNT).foldlM (installCanonical security translator abi) tbl)
    (emptyCb Dbg)

/-- `TracedPopen._callback` (lines 245–260): the Python-side verdict at a
syscall-entry stop.  An invalid ABI yields `False`; an in-range syscall is
looked up in the callback table (`None` → `False`); an out-of-range syscall
raises `IndexError`, caught to yield the ARM-private-window test on ARM and
`False` elsewhere.  `M` is `MAX_SYSCALL_NUMBER`. -/
def tracedCallback {Dbg : Type} (tbl : CbTable Dbg) (M : Nat) (abi : ABI)
    (syscall : Nat) (dbg : Dbg) : Bool :=
  if abi = .invalid then false
  else if syscall < M then
    match tbl abi syscall with
    | some f => f dbg
    | none => false
  else if abi = .arm then decide (0xF0000 < syscall ∧ syscall < 0xF0006)
  else false

/-- One iteration of `TracedPopen._get_seccomp_whitelist` (lines 169–183)
for canonical id `i`: `sys_exit`/`sys_exit_group` are skipped before the
handler is even consulted; otherwise every native number of `i` on the
native ABI whose handler is an `int` gets entry `handler == ALLOW`. -/
def whitelistStep {Dbg : Type} (security : Nat → Option (PyHandler Dbg))
    (translator : Nat → Nat → List (Option Nat)) (sys_exit sys_exit_group idx : Nat)
    (wl : Nat → Bool) (i : Nat) : Nat → Bool :=
  if i = sys_exit ∨ i = sys_exit_group then wl
  else
    let handler := (security i).getD (.int DISALLOW)
    (translator i idx).foldl
      (fun wl call? =>
        match call? with
        | none => wl
        | some call =>
          match handler with
          | .int h => fun n => if n = call then decide (h = ALLOW) else wl n
          | _ => wl)
      wl

/-- `TracedPopen._get_seccomp_whitelist`: a boolean vector (embedded as a
function; all writes stay below `MAX_SYSCALL_NUMBER` for the real
translation table) indexed by native syscall number on the native ABI,
built from `[False] * MAX_SYSCALL_NUMBER` by the loop above.  `idx` is
`_SYSCALL_INDICIES[NATIVE_ABI]`. -/
def getSeccompWhitelist {Dbg : Type} (SYSCALL_COUNT : Nat)
    (security : Nat → Option (PyHandler Dbg))
    (translator : Nat → Nat → List (Option Nat))
    (sys_exit sys_exit_group idx : Nat) : Nat → Bool :=
  (List.range SYSCALL_COUNT).foldl
    (whitelistStep security translator sys_exit sys_exit_group idx)
    (fun _ => false)

/-! ## The `_run_process` worker and the spawn-error propagation -/

/-- The observable actions of `TracedPopen._run_process` (lines 296–330),
in program order. -/
inductive RunEvent where
  | storeSpawnError
  | setDied
  | closeStreams
  | setSpawnedOrErrored
  | oomAdjust
  | monitor
  | tleCheck
  deriving DecidableEq, Repr

/-- The sequence of actions `_run_process` performs, by whether `_spawn`
raises.  On an exception the `except` block stores the error and sets
`died`, and only then does the `return` run the `finally` block, which
closes the child streams and sets `spawned_or_errored`.  On success the
`finally` block runs right after `_spawn`, then the OOM-score adjustment,
the monitor loop, the TLE check, and finally `died` is set. -/
def runProcessTrace (spawnOk : Bool) : List RunEvent :=
  if spawnOk then
    [.closeStreams, .setSpawnedOrErrored, .oomAdjust, .monitor, .tleCheck, .setDied]
  else
    [.storeSpawnError, .setDied, .closeStreams, .setSpawnedOrErrored]

/-- Position of the first occurrence of an action in a trace (the length of
the trace when the action never occurs). -/
def eventPos (e : RunEvent) (l : List RunEvent) : Nat :=
  l.findIdx fun x => decide (x = e)

/-- The supervisor state fields touched by `_run_process`: the stored spawn
error and the two events. -/
structure RunState (E : Type) where
  spawnError : Option E
  died : Bool
  spawnedOrErrored : Bool

/-- Effect of one `_run_process` action on the supervisor state; `err?` is
the exception `_spawn` raised, when it did. -/
def applyRunEvent {E : Type} (err? : Option E) (st : RunState E) :
    RunEvent → RunState E
  | .storeSpawnError => { st with spawnError := err? }
  | .setDied => { st with died := true }
  | .setSpawnedOrErrored => { st with spawnedOrErrored := true }
  | _ => st

/-- The supervisor state after `_run_process` returns, given the outcome of
`_spawn`. -/
def runProcessFinal {E : Type} (spawnResult : Except E Unit) : RunState E :=
  (runProcessTrace spawnResult.toBool).foldl
    (applyRunEvent (match spawnResult with | .error e => some e | .ok _ => none))
    ⟨none, false, false⟩

/-- The tail of `TracedPopen.__init__` (lines 165–167): wait on
`spawned_or_errored`, then re-raise a stored spawn error in the caller
thread.  Construction succeeds only when no spawn error was stored. -/
def initOutcome {E : Type} (spawnResult : Except E Unit) : Except E (RunState E) :=
  let st := runProcessFinal spawnResult
  match st.spawnError with
  | some e => .error e
  | none => .ok st

/-! ## Protection faults and the ptrace-failure path -/

/-- The `protection_fault` record: `(syscall, name, args[0..5], errno?)`. -/
structure Fault where
  syscall : Int
  callname : String
  args : List Nat
  errno : Option Nat
  deriving DecidableEq, Repr

/-- The six unsigned syscall arguments `uarg0..uarg5` the debugger exposes. -/
structure UArgs where
  uarg0 : Nat
  uarg1 : Nat
  uarg2 : Nat
  uarg3 : Nat
  uarg4 : Nat
  uarg5 : Nat

/-- `TracedPopen._protection_fault` (lines 262–287): a syscall read back as
−1 means ptrace failed to read the registers; the record is then
`(-1, 'ptrace fail', [0]*6, None)` — the last ptrace errno is only logged.
Otherwise the record names the syscall and captures `uarg0..uarg5`, with
the last ptrace errno kept only when `is_update` holds. -/
def protectionFault (getName : Int → String) (u : UArgs)
    (lastPtraceErrno : Option Nat) (syscall : Int) (is_update : Bool) : Fault :=
  if syscall = -1 then
    ⟨-1, "ptrace fail", [0, 0, 0, 0, 0, 0], none⟩
  else
    ⟨syscall, getName syscall, [u.uarg0, u.uarg1, u.uarg2, u.uarg3, u.uarg4, u.uarg5],
      if is_update then lastPtraceErrno else none⟩

/-- What the monitor does with the tracee after a stop. -/
inductive MonitorReaction where
  | kill
  | continueTracee
  deriving DecidableEq, Repr

/-- Modelled from the spec: the monitor loop's reaction to a denied or
unreadable syscall (the loop lives in the `_cptbox` C extension, outside the
embedded sources).  On a syscall read back as −1 it records the fault via
`_protection_fault` and kills the tracee; it never continues the tracee
after a failed register read. -/
def monitorOnDeniedSyscall (getName : Int → String) (u : UArgs)
    (lastPtraceErrno : Option Nat) (syscall : Int) (is_update : Bool) :
    MonitorReaction × Fault :=
  (.kill, protectionFault getName u lastPtraceErrno syscall is_update)

/-! ## The debugger façade: `readstr` -/

/-- Modelled from the spec: the base `Debugger.readstr(address, limit)` of
the `_cptbox` C extension (outside the embedded sources).  Tracee memory at
an address is either unreadable (`none`) or a byte stream; the primitive
returns `None` when the memory is unreadable, and otherwise the bytes
before the first NUL, reading at most `limit` bytes. -/
def baseReadstr (mem : Option (Nat → Nat)) (limit : Nat) : Option (List Nat) :=
  mem.map fun stream => ((List.range limit).map stream).takeWhile (· ≠ 0)

/-- `AdvancedDebugger.readstr` (lines 75–83): mask the address to 32 bits on
a 32-bit ABI, read `max_size + 1` bytes, return `None` for unreadable
memory, raise `MaxLengthExceeded` (carrying the bytes read) when the string
is longer than `max_size`, and otherwise return the string.  `memAt` maps
each address to the tracee memory there. -/
def readstr (memAt : Nat → Option (Nat → Nat)) (abi : ABI)
    (address maxSize : Nat) : Except (List Nat) (Option (List Nat)) :=
  let address := if addressBits abi = some 32 then address % 2 ^ 32 else address
  match baseReadstr (memAt address) (maxSize + 1) with
  | none => .ok none
  | some read => if read.length > maxSize then .error read else .ok (some read)

/-! ## The watchdog ("shocker") worker -/

/-- The wake signals: `SIGSTOP` on FreeBSD, `SIGWINCH` elsewhere. -/
inductive WakeSignal where
  | sigstop
  | sigwinch
  deriving DecidableEq, Repr

/-- `wake_signal = signal.SIGSTOP if 'freebsd' in sys.platform else
signal.SIGWINCH` (line 339). -/
def wakeSignal (freebsd : Bool) : WakeSignal :=
  if freebsd then .sigstop else .sigwinch

/-- What one iteration of the shocker loop does. -/
inductive ShockerAction where
  | exitLoop
  | killAndTle
  | wake (s : WakeSignal)
  deriving DecidableEq, Repr

/-- `if time:` in `TracedPopen.__init__` (line 158): the shocker thread is
started exactly when the `time` argument is truthy, i.e. nonzero. -/
def shockerStarted (time : ℚ) : Bool :=
  !(time == 0)

/-- One iteration of `TracedPopen._shocker_thread`'s loop (lines 342–351):
the loop exits when the 1-second timed wait on `died` returns true; else if
`execution_time > self._time or wall_clock_time > self._wall_time` the
process group is killed and `is_tle` is set; else the wake signal is sent to
the process group, and an `OSError` from `os.killpg` (`wakeFailed`) is
swallowed — the action does not depend on it. -/
def shockerStep (diedWithinWait : Bool) (execTime wallTime timeLimit wallLimit : ℚ)
    (freebsd : Bool) (wakeFailed : Bool) : ShockerAction :=
  if diedWithinWait then .exitLoop
  else if execTime > timeLimit ∨ wallTime > wallLimit then .killAndTle
  else
    let _ := wakeFailed
    .wake (wakeSignal freebsd)

/-! ## Limit initialisation and result flags -/

/-- `self._wall_time = time * 3 if wall_time is None else wall_time`
(line 121). -/
def wallTimeInit (time : ℚ) (wall_time : Option ℚ) : ℚ :=
  match wall_time with
  | none => time * 3
  | some w => w

/-- `self._cpu_time = time + 5 if time else 0` (line 122): the CPU hard-cap
handed to `setrlimit`. -/
def cpuTimeInit (time : ℚ) : ℚ :=
  if time == 0 then 0 else time + 5

/-- `TracedPopen.is_mle` (line 216): `self._memory and
self.max_memory > self._memory` — truthy exactly when a memory limit is set
and exceeded (memory figures in KiB). -/
def is_mle (memory max_memory : Nat) : Bool :=
  !(memory == 0) && decide (max_memory > memory)

/-- `TracedPopen.is_ir` (line 212): `self.returncode > 0`.  A `None`
return code makes the Python comparison raise `TypeError`. -/
def is_ir (returncode : Option Int) : Except PyError Bool :=
  match returncode with
  | none => .error .typeError
  | some r => .ok (decide (r > 0))

/-- `TracedPopen.is_rte` (line 224): `self.returncode is None or
self.returncode < 0` (killed by signal). -/
def is_rte (returncode : Option Int) : Bool :=
  match returncode with
  | none => true
  | some r => decide (r < 0)

/-! # Theorems settling the claims -/

/-- C3 (counterexample): on a spawn attempt that fails with an exception,
`_run_process` sets `died` (in the `except` block) before
`spawned_or_errored` (in the `finally` block), so `spawned_or_errored` is
not set strictly before `died` on that path, contrary to the claim. -/
theorem spawn_failure_sets_died_first :
    ¬ eventPos .setSpawnedOrErrored (runProcessTrace false)
        < eventPos .setDied (runProcessTrace false) := by
  decide

/-- C3 (amended): on every run of `_run_process` each of
`spawned_or_errored` and `died` is set exactly once; on a successful spawn
`spawned_or_errored` is set strictly before `died`, but on a failed spawn
`died` is set strictly before `spawned_or_errored` (the `except` block sets
`died` and only then does the `finally` block set `spawned_or_errored`). -/
theorem run_process_event_order (spawnOk : Bool) :
    ((runProcessTrace spawnOk).count .setSpawnedOrErrored = 1
      ∧ (runProcessTrace spawnOk).count .setDied = 1)
    ∧ eventPos .setSpawnedOrErrored (runProcessTrace true)
        < eventPos .setDied (runProcessTrace true)
    ∧ eventPos .setDied (runProcessTrace false)
        < eventPos .setSpawnedOrErrored (runProcessTrace false) := by
  cases spawnOk <;> decide

/-- C4 (counterexample): with a last ptrace errno of 5 on record, the fault
stored for a syscall read back as −1 is not
`(-1, 'ptrace fail', [0]*6, last_errno)`: the errno slot of the stored
record is `None`, not the last ptrace errno. -/
theorem ptrace_fail_errno_not_recorded :
    protectionFault (fun _ => "unknown") ⟨0, 0, 0, 0, 0, 0⟩ (some 5) (-1) true
      ≠ ⟨-1, "ptrace fail", [0, 0, 0, 0, 0, 0], some 5⟩ := by
  decide

/-- C4 (amended): when the monitor observes a syscall reported as −1, the
supervisor records `protection_fault = (-1, 'ptrace fail', [0]*6, None)` —
the last ptrace errno is only logged, never stored — and kills the tracee
rather than continuing it (the kill is the monitor's, modelled from the
spec). -/
theorem ptrace_fail_fault_record (getName : Int → String) (u : UArgs)
    (errno? : Option Nat) (is_update : Bool) :
    monitorOnDeniedSyscall getName u errno? (-1) is_update
        = (.kill, ⟨-1, "ptrace fail", [0, 0, 0, 0, 0, 0], none⟩)
    ∧ (monitorOnDeniedSyscall getName u errno? (-1) is_update).1
        ≠ .continueTracee := by
  constructor
  · simp [monitorOnDeniedSyscall, protectionFault]
  · simp [monitorOnDeniedSyscall]

/-- C5: when `_spawn` raises, `_run_process` stores the exception and sets
both `died` and `spawned_or_errored`, so no caller blocks forever on
either event, and the tail of `__init__` re-raises the stored exception in
the caller thread, failing construction with exactly that exception. -/
theorem spawn_error_propagation {E : Type} (e : E) :
    (runProcessFinal (Except.error e)).spawnError = some e
    ∧ (runProcessFinal (Except.error e)).died = true
    ∧ (runProcessFinal (Except.error e)).spawnedOrErrored = true
    ∧ initOutcome (Except.error e) = Except.error e := by
  refine ⟨rfl, rfl, rfl, rfl⟩

/-- C8: with a positive CPU limit, an unsupplied wall-clock limit defaults
to three times the CPU limit and the CPU hard-cap handed to `setrlimit` is
the CPU limit plus five seconds; with a zero CPU limit the hard-cap is zero
(disabled). -/
theorem limits_init_spec (time : ℚ) (h : 0 < time) :
    wallTimeInit time none = 3 * time
    ∧ cpuTimeInit time = time + 5
    ∧ cpuTimeInit 0 = 0 := by
  refine ⟨by simp [wallTimeInit, mul_comm], ?_, by simp [cpuTimeInit]⟩
  have : ¬(time == 0) = true := by
    simp only [beq_iff_eq]
    exact fun h0 => absurd h0 (ne_of_gt h)
  simp [cpuTimeInit, beq_iff_eq, ne_of_gt h]

/-- Witness for `limits_init_spec` at `time = 2`. -/
theorem limits_init_spec_witness :
    (0 : ℚ) < 2
    ∧ (wallTimeInit 2 none = 3 * 2 ∧ cpuTimeInit 2 = 2 + 5 ∧ cpuTimeInit 0 = 0) :=
  ⟨by norm_num, limits_init_spec 2 (by norm_num)⟩

/-- C9: after `died`, `is_mle` holds iff a memory limit was set and
`max_memory` exceeds it; `is_ir` evaluates to true iff the return code is
a positive integer (a `None` return code raises `TypeError` instead of
producing a verdict); `is_rte` holds iff the return code is `None` or
negative. -/
theorem result_flags_spec (memory max_memory : Nat) (rc : Option Int) :
    (is_mle memory max_memory = true ↔ memory ≠ 0 ∧ max_memory > memory)
    ∧ (is_ir rc = .ok true ↔ ∃ r, rc = some r ∧ 0 < r)
    ∧ (is_rte rc = true ↔ rc = none ∨ ∃ r, rc = some r ∧ r < 0) := by
  refine ⟨?_, ?_, ?_⟩
  · simp [is_mle]
  · cases rc with
    | none => simp [is_ir]
    | some r => simp [is_ir]
  · cases rc with
    | none => simp [is_rte]
    | some r => simp [is_rte]

/-- Helper: `takeWhile (· ≠ 0)` over a mapped `range'` keeps everything
when no byte in the window is NUL. -/
theorem takeWhile_map_range'_all (stream : Nat → Nat) :
    ∀ (b a : Nat), (∀ k, k < b → stream (a + k) ≠ 0) →
      ((List.range' a b).map stream).takeWhile (fun x => decide (x ≠ 0))
        = (List.range' a b).map stream := by
  intro b
  induction b with
  | zero => intro a _; rfl
  | succ b ih =>
    intro a hk
    rw [List.range'_succ a b 1]
    have ha : stream a ≠ 0 := by
      have := hk 0 (Nat.succ_pos b); simpa using this
    simp only [List.map_cons, List.takeWhile_cons]
    rw [if_pos (by simp [ha])]
    rw [ih (a + 1) fun k hkb => by
      have := hk (k + 1) (Nat.succ_lt_succ hkb)
      have heq : a + (k + 1) = a + 1 + k := by omega
      rwa [heq] at this]

/-- Helper: `takeWhile (· ≠ 0)` over a mapped `range'` cuts exactly at the
first NUL byte. -/
theorem takeWhile_map_range'_of_nul (stream : Nat → Nat) :
    ∀ (b p a : Nat), p < b → stream (a + p) = 0 →
      (∀ k, k < p → stream (a + k) ≠ 0) →
      ((List.range' a b).map stream).takeWhile (fun x => decide (x ≠ 0))
        = (List.range' a p).map stream := by
  intro b
  induction b with
  | zero => intro p a hp _ _; exact absurd hp (Nat.not_lt_zero p)
  | succ b ih =>
    intro p a hp h0 hk
    rw [List.range'_succ a b 1]
    cases p with
    | zero =>
      have hz : stream a = 0 := by simpa using h0
      simp [List.takeWhile_cons, hz]
    | succ q =>
      have ha : stream a ≠ 0 := by
        have := hk 0 (Nat.succ_pos q); simpa using this
      rw [List.range'_succ a q 1]
      simp only [List.map_cons, List.takeWhile_cons]
      rw [if_pos (by simp [ha])]
      congr 1
      refine ih q (a + 1) (Nat.lt_of_succ_lt_succ hp) ?_ ?_
      · have heq : a + 1 + q = a + (q + 1) := by omega
        rw [heq]; exact h0
      · intro k hkq
        have := hk (k + 1) (Nat.succ_lt_succ hkq)
        have heq : a + (k + 1) = a + 1 + k := by omega
        rwa [heq] at this

/-- C6: `readstr(address, max_size)` first masks the address to its low 32
bits on a 32-bit ABI; unreadable memory yields `None`; when the string has
no NUL terminator within the `max_size`-byte budget (the first NUL lies
beyond byte `max_size`) the call fails with `MaxLengthExceeded`; otherwise
the NUL-terminated string, of at most `max_size` bytes, is returned. -/
theorem readstr_spec (memAt : Nat → Option (Nat → Nat)) (abi : ABI)
    (address maxSize : Nat) :
    (addressBits abi = some 32 →
      readstr memAt abi address maxSize
        = readstr memAt abi (address % 2 ^ 32) maxSize)
    ∧ (memAt (if addressBits abi = some 32 then address % 2 ^ 32 else address)
          = none →
        readstr memAt abi address maxSize = .ok none)
    ∧ ∀ stream,
        memAt (if addressBits abi = some 32 then address % 2 ^ 32 else address)
            = some stream →
        ((∀ k, k ≤ maxSize → stream k ≠ 0) →
          readstr memAt abi address maxSize
            = .error ((List.range (maxSize + 1)).map stream))
        ∧ ∀ p, p ≤ maxSize → stream p = 0 → (∀ k, k < p → stream k ≠ 0) →
            readstr memAt abi address maxSize
              = .ok (some ((List.range p).map stream))
            ∧ ((List.range p).map stream).length ≤ maxSize := by
  refine ⟨fun h32 => ?_, fun hnone => ?_, fun stream hsome => ⟨fun hall => ?_, ?_⟩⟩
  · have hmask : address % 2 ^ 32 % 2 ^ 32 = address % 2 ^ 32 :=
      Nat.mod_mod_of_dvd address dvd_rfl
    simp [readstr, h32, hmask]
  · simp only [readstr] at *
    rw [hnone]
    rfl
  · have hcut : ((List.range (maxSize + 1)).map stream).takeWhile
        (fun x => decide (x ≠ 0)) = (List.range (maxSize + 1)).map stream := by
      rw [List.range_eq_range' (maxSize + 1)]
      exact takeWhile_map_range'_all stream (maxSize + 1) 0
        fun k hk => by simpa using hall k (Nat.lt_succ_iff.mp hk)
    have hbase : baseReadstr
        (memAt (if addressBits abi = some 32 then address % 2 ^ 32 else address))
        (maxSize + 1) = some ((List.range (maxSize + 1)).map stream) := by
      rw [hsome]
      show some (((List.range (maxSize + 1)).map stream).takeWhile
        (fun x => decide (x ≠ 0))) = _
      rw [hcut]
    simp only [readstr, hbase]
    rw [if_pos (by simp)]
  · intro p hp h0 hk
    have hcut : ((List.range (maxSize + 1)).map stream).takeWhile
        (fun x => decide (x ≠ 0)) = (List.range p).map stream := by
      rw [List.range_eq_range' (maxSize + 1), List.range_eq_range' p]
      exact takeWhile_map_range'_of_nul stream (maxSize + 1) p 0
        (Nat.lt_succ_of_le hp) (by simpa using h0) fun k hkp => by simpa using hk k hkp
    have hlen : ((List.range p).map stream).length = p := by simp
    have hbase : baseReadstr
        (memAt (if addressBits abi = some 32 then address % 2 ^ 32 else address))
        (maxSize + 1) = some ((List.range p).map stream) := by
      rw [hsome]
      show some (((List.range (maxSize + 1)).map stream).takeWhile
        (fun x => decide (x ≠ 0))) = _
      rw [hcut]
    refine ⟨?_, by rw [hlen]; exact hp⟩
    simp only [readstr, hbase]
    rw [if_neg (by rw [hlen]; omega)]

/-- Witness for `readstr_spec` on the x86 ABI, with a memory where address
`2 ^ 32 + 1` masks to `1`, holding the byte stream `7, 7, 0, …`, and
`max_size = 4`. -/
theorem readstr_spec_witness :
    (addressBits .x86 = some 32
      ∧ readstr (fun a => if a = 1 then some (fun k => if k < 2 then 7 else 0) else none)
          .x86 (2 ^ 32 + 1) 4
        = readstr (fun a => if a = 1 then some (fun k => if k < 2 then 7 else 0) else none)
          .x86 ((2 ^ 32 + 1) % 2 ^ 32) 4)
    ∧ ((2 : Nat) ≤ 4 ∧ (if (2 : Nat) < 2 then (7 : Nat) else 0) = 0
      ∧ readstr (fun a => if a = 1 then some (fun k => if k < 2 then 7 else 0) else none)
          .x86 (2 ^ 32 + 1) 4
        = .ok (some ((List.range 2).map (fun k => if k < 2 then 7 else 0)))) := by
  have h := readstr_spec
    (fun a => if a = 1 then some (fun k => if k < 2 then (7 : Nat) else 0) else none)
    .x86 (2 ^ 32 + 1) 4
  refine ⟨⟨rfl, h.1 rfl⟩, by decide, by decide, ?_⟩
  exact (((h.2.2 (fun k => if k < 2 then 7 else 0) rfl).2) 2
    (by decide) (by decide) (by decide)).1

/-- Helper: an invariant preserved by every successful step of an
`Except`-valued left fold also holds after a successful fold. -/
theorem except_foldlM_inv {α β ε : Type} (f : β → α → Except ε β) (P : β → Prop) :
    ∀ (l : List α) (b b' : β),
      (∀ a acc acc', a ∈ l → P acc → f acc a = .ok acc' → P acc') →
      l.foldlM f b = .ok b' → P b → P b' := by
  intro l
  induction l with
  | nil =>
    intro b b' _ h hP
    rw [List.foldlM_nil] at h
    cases h
    exact hP
  | cons a t ih =>
    intro b b' H h hP
    rw [List.foldlM_cons] at h
    cases hfa : f b a with
    | error e =>
      rw [hfa] at h
      exact Except.noConfusion h
    | ok b₁ =>
      rw [hfa] at h
      have h' : t.foldlM f b₁ = .ok b' := h
      exact ih b₁ b' (fun x acc acc' hx => H x acc acc' (List.mem_cons_of_mem a hx))
        h' (H a b b₁ (List.mem_cons_self a t) hP hfa)

/-- Helper: when no canonical syscall that maps a given native number on a
given ABI carries a callable handler, a successful policy installation
leaves that callback-table cell empty. -/
theorem installPolicy_cell_none {Dbg : Type} (abis : List ABI) (COUNT : Nat)
    (security : Nat → Option (PyHandler Dbg))
    (translator : Nat → Nat → List (Option Nat)) (tbl : CbTable Dbg)
    (abi₀ : ABI) (call₀ : Nat)
    (Hno : ∀ j, j < COUNT →
      (some call₀) ∈ translator j ((syscallIndex abi₀).getD 6) →
      ∀ f, (security j).getD (.int DISALLOW) ≠ .callable f)
    (Hok : installPolicy abis COUNT security translator = .ok tbl) :
    tbl abi₀ call₀ = none := by
  refine except_foldlM_inv _ (fun t => t abi₀ call₀ = none) abis (emptyCb Dbg) tbl
    ?_ Hok rfl
  intro abi acc acc' _ hacc hstep
  refine except_foldlM_inv _ (fun t => t abi₀ call₀ = none) (List.range COUNT)
    acc acc' ?_ hstep hacc
  intro i acc2 acc2' hi hacc2 hstep2
  have hiC : i < COUNT := List.mem_range.mp hi
  unfold installCanonical at hstep2
  refine except_foldlM_inv _ (fun t => t abi₀ call₀ = none)
    (translator i ((syscallIndex abi).getD 6)) acc2 acc2' ?_ hstep2 hacc2
  intro c? acc3 acc3' hc hacc3 hstep3
  cases c? with
  | none =>
    cases hstep3
    exact hacc3
  | some c =>
    cases hh : (security i).getD (.int DISALLOW) with
    | int m =>
      rw [hh] at hstep3
      cases hstep3
      exact hacc3
    | callable f =>
      rw [hh] at hstep3
      cases hstep3
      show cbUpdate acc3 abi c f abi₀ call₀ = none
      unfold cbUpdate
      by_cases hco : abi₀ = abi ∧ call₀ = c
      · exfalso
        obtain ⟨hA, hC⟩ := hco
        refine Hno i hiC ?_ f hh
        rw [hA, hC]
        exact hc
      · rw [if_neg hco]
        exact hacc3
    | strVal s =>
      rw [hh] at hstep3
      exact Except.noConfusion hstep3
    | other =>
      rw [hh] at hstep3
      exact Except.noConfusion hstep3

/-- C1: for every syscall-entry decision, a canonical syscall absent from
the caller-supplied security map gets the default `DISALLOW` handler, so no
callback is installed for its native numbers and the verdict is false; for
a native number outside the policy table's range (`≥ MAX_SYSCALL_NUMBER`)
the verdict is false, except on the ARM ABI for numbers strictly between
0xF0000 and 0xF0006, where it is true even under an all-deny policy (the
verdict there never consults the security map). -/
theorem syscall_verdict_spec {Dbg : Type} (abis : List ABI) (COUNT M : Nat)
    (security : Nat → Option (PyHandler Dbg))
    (translator : Nat → Nat → List (Option Nat)) (tbl : CbTable Dbg)
    (Hok : installPolicy abis COUNT security translator = .ok tbl) :
    (∀ (abi : ABI) (i call : Nat) (dbg : Dbg),
      security i = none →
      (some call) ∈ translator i ((syscallIndex abi).getD 6) →
      (∀ j, j < COUNT → (some call) ∈ translator j ((syscallIndex abi).getD 6) →
        ∀ f, security j ≠ some (.callable f)) →
      call < M →
      tracedCallback tbl M abi call dbg = false)
    ∧ ∀ (abi : ABI) (s : Nat) (dbg : Dbg), M ≤ s →
      (tracedCallback tbl M abi s dbg = true ↔
        abi = .arm ∧ 0xF0000 < s ∧ s < 0xF0006) := by
  constructor
  · intro abi i call dbg hsec hmem Hno hlt
    have hnone : tbl abi call = none := by
      refine installPolicy_cell_none abis COUNT security translator tbl abi call
        ?_ Hok
      intro j hj hmj f
      cases hs : security j with
      | none =>
        simp only [hs, Option.getD_none]
        exact fun heq => PyHandler.noConfusion heq
      | some h =>
        simp only [hs, Option.getD_some]
        intro heq
        exact Hno j hj hmj f (by rw [hs, heq])
    by_cases hinv : abi = .invalid
    · simp [tracedCallback, hinv]
    · simp [tracedCallback, hinv, hlt, hnone]
  · intro abi s dbg hM
    have hns : ¬s < M := Nat.not_lt.mpr hM
    by_cases hinv : abi = .invalid
    · simp [tracedCallback, hinv]
    · by_cases harm : abi = .arm
      · simp [tracedCallback, harm, hns]
      · simp [tracedCallback, hinv, harm, hns]

/-- Witness for `syscall_verdict_spec`: two canonical syscalls, an empty
security map, `MAX_SYSCALL_NUMBER = 100`; native number 5 of canonical 0 on
x64 is denied, while out-of-range 0xF0002 on ARM is allowed. -/
theorem syscall_verdict_spec_witness :
    @installPolicy Unit [ABI.x64, ABI.arm] 2 (fun _ => none)
        (fun i k => if i = 0 ∧ k = 1 then [some 5] else []) = .ok (emptyCb Unit)
    ∧ tracedCallback (emptyCb Unit) 100 .x64 5 () = false
    ∧ tracedCallback (emptyCb Unit) 100 .arm 0xF0002 () = true := by
  have h := @syscall_verdict_spec Unit [ABI.x64, ABI.arm] 2 100
    (fun _ => none) (fun i k => if i = 0 ∧ k = 1 then [some 5] else [])
    (emptyCb Unit) rfl
  refine ⟨rfl, ?_, ?_⟩
  · exact h.1 .x64 0 5 () rfl (by decide)
      (fun j hj hm f => by simp) (by decide)
  · exact (h.2 .arm 0xF0002 () (by decide)).mpr ⟨rfl, by decide, by decide⟩

/-- Helper: a left fold whose step never changes the accumulator returns
the initial accumulator. -/
theorem foldl_step_id {α β : Type} (f : β → α → β) (hf : ∀ b a, f b a = b) :
    ∀ (l : List α) (b : β), l.foldl f b = b := by
  intro l
  induction l with
  | nil => intro b; rfl
  | cons a t ih =>
    intro b
    rw [List.foldl_cons, hf]
    exact ih b

/-- Helper: pointwise value of the inner whitelist fold for an integer
handler `h`: every native number in the list gets `h == ALLOW`, the rest
keep their previous value. -/
theorem wl_inner_int (h : Int) :
    ∀ (l : List (Option Nat)) (wl : Nat → Bool) (n : Nat),
      (l.foldl
        (fun wl call? =>
          match call? with
          | none => wl
          | some call => fun m => if m = call then decide (h = ALLOW) else wl m)
        wl) n
      = if (some n) ∈ l then decide (h = ALLOW) else wl n := by
  intro l
  induction l with
  | nil => intro wl n; simp
  | cons c? t ih =>
    intro wl n
    rw [List.foldl_cons]
    cases c? with
    | none =>
      rw [ih]
      by_cases hm : (some n) ∈ t
      · rw [if_pos hm, if_pos (List.mem_cons_of_mem _ hm)]
      · rw [if_neg hm, if_neg (by simp [List.mem_cons, hm])]
    | some c =>
      rw [ih]
      by_cases hm : (some n) ∈ t
      · rw [if_pos hm, if_pos (List.mem_cons_of_mem _ hm)]
      · rw [if_neg hm]
        show (if n = c then decide (h = ALLOW) else wl n)
          = if (some n) ∈ some c :: t then decide (h = ALLOW) else wl n
        by_cases hnc : n = c
        · rw [if_pos hnc, if_pos (by simp [List.mem_cons, hnc])]
        · rw [if_neg hnc, if_neg (by simp [List.mem_cons, hm, hnc])]

/-- Helper: pointwise evaluation of one whitelist-building step. -/
theorem whitelistStep_apply {Dbg : Type} (security : Nat → Option (PyHandler Dbg))
    (translator : Nat → Nat → List (Option Nat)) (e eg idx : Nat)
    (wl : Nat → Bool) (i n : Nat) :
    whitelistStep security translator e eg idx wl i n
      = if i = e ∨ i = eg then wl n
        else
          match (security i).getD (.int DISALLOW) with
          | .int h => if (some n) ∈ translator i idx then decide (h = ALLOW) else wl n
          | _ => wl n := by
  by_cases hie : i = e ∨ i = eg
  · simp [whitelistStep, hie]
  · simp only [whitelistStep, if_neg hie]
    cases hh : (security i).getD (.int DISALLOW) with
    | int h => exact wl_inner_int h (translator i idx) wl n
    | callable f =>
      exact congrFun (foldl_step_id _ (fun b a => by cases a <;> rfl)
        (translator i idx) wl) n
    | strVal s =>
      exact congrFun (foldl_step_id _ (fun b a => by cases a <;> rfl)
        (translator i idx) wl) n
    | other =>
      exact congrFun (foldl_step_id _ (fun b a => by cases a <;> rfl)
        (translator i idx) wl) n

/-- Helper: a fold of whitelist steps that never touch index `n` leaves the
entry at `n` unchanged. -/
theorem wl_fold_unchanged {Dbg : Type} (security : Nat → Option (PyHandler Dbg))
    (translator : Nat → Nat → List (Option Nat)) (e eg idx n : Nat) :
    ∀ (l : List Nat) (wl : Nat → Bool),
      (∀ i ∈ l, ∀ w : Nat → Bool,
        whitelistStep security translator e eg idx w i n = w n) →
      (l.foldl (whitelistStep security translator e eg idx) wl) n = wl n := by
  intro l
  induction l with
  | nil => intro wl _; rfl
  | cons a t ih =>
    intro wl H
    rw [List.foldl_cons,
      ih _ (fun i hi => H i (List.mem_cons_of_mem _ hi))]
    exact H a (List.mem_cons_self a t) wl

/-- Helper: a fold of whitelist steps in which exactly one canonical
(un)conditionally writes value `v` at index `n` and no other step touches
`n` ends with value `v` at `n`. -/
theorem wl_fold_value {Dbg : Type} (security : Nat → Option (PyHandler Dbg))
    (translator : Nat → Nat → List (Option Nat)) (e eg idx n : Nat) (v : Bool) :
    ∀ (l : List Nat) (wl : Nat → Bool) (i : Nat),
      i ∈ l →
      (∀ w : Nat → Bool, whitelistStep security translator e eg idx w i n = v) →
      (∀ j ∈ l, j ≠ i → ∀ w : Nat → Bool,
        whitelistStep security translator e eg idx w j n = w n) →
      (l.foldl (whitelistStep security translator e eg idx) wl) n = v := by
  intro l
  induction l with
  | nil => intro wl i hi; cases hi
  | cons a t ih =>
    intro wl i hia hw Hothers
    rw [List.foldl_cons]
    by_cases hit : i ∈ t
    · exact ih _ i hit hw fun j hj hne =>
        Hothers j (List.mem_cons_of_mem _ hj) hne
    · have hai : a = i := by
        cases List.mem_cons.mp hia with
        | inl h => exact h.symm
        | inr h => exact absurd h hit
      subst hai
      rw [wl_fold_unchanged security translator e eg idx n t _
        fun j hj => Hothers j (List.mem_cons_of_mem _ hj)
          fun hji => hit (hji ▸ hj)]
      exact hw wl

/-- C2: for every security map, the seccomp whitelist has entry true for a
native number (other than a native number of `exit`/`exit_group`) iff the
handler of the canonical syscall owning that number is the `ALLOW`
constant; the natives of `exit` and `exit_group` are always false
regardless of the supplied policy, as are numbers owned by no canonical. -/
theorem seccomp_whitelist_spec {Dbg : Type} (COUNT : Nat)
    (security : Nat → Option (PyHandler Dbg))
    (translator : Nat → Nat → List (Option Nat)) (sys_exit sys_exit_group idx : Nat) :
    (∀ n i, i < COUNT → i ≠ sys_exit → i ≠ sys_exit_group →
      (some n) ∈ translator i idx →
      (∀ j, j < COUNT → (some n) ∈ translator j idx → j = i) →
      (getSeccompWhitelist COUNT security translator sys_exit sys_exit_group idx n
          = true
        ↔ (security i).getD (.int DISALLOW) = .int ALLOW))
    ∧ ∀ n, (∀ j, j < COUNT → (some n) ∈ translator j idx →
        j = sys_exit ∨ j = sys_exit_group) →
      getSeccompWhitelist COUNT security translator sys_exit sys_exit_group idx n
        = false := by
  have noWriteOf : ∀ j n, (j = sys_exit ∨ j = sys_exit_group) ∨
      (some n) ∉ translator j idx ∨
      (∀ m : Int, (security j).getD (.int DISALLOW) ≠ .int m) →
      ∀ w : Nat → Bool,
        whitelistStep security translator sys_exit sys_exit_group idx w j n = w n := by
    intro j n hcond w
    rw [whitelistStep_apply]
    rcases hcond with he | hnm | hni
    · rw [if_pos he]
    · by_cases he : j = sys_exit ∨ j = sys_exit_group
      · rw [if_pos he]
      · rw [if_neg he]
        cases hh : (security j).getD (.int DISALLOW) with
        | int m => exact if_neg hnm
        | callable f => rfl
        | strVal s => rfl
        | other => rfl
    · by_cases he : j = sys_exit ∨ j = sys_exit_group
      · rw [if_pos he]
      · rw [if_neg he]
        cases hh : (security j).getD (.int DISALLOW) with
        | int m => exact absurd hh (hni m)
        | callable f => rfl
        | strVal s => rfl
        | other => rfl
  constructor
  · intro n i hiC hie hieg hmem Huniq
    cases hh : (security i).getD (.int DISALLOW) with
    | int h =>
      have hval : getSeccompWhitelist COUNT security translator sys_exit
          sys_exit_group idx n = decide (h = ALLOW) := by
        refine wl_fold_value security translator sys_exit sys_exit_group idx n _
          (List.range COUNT) _ i (List.mem_range.mpr hiC) ?_ ?_
        · intro w
          rw [whitelistStep_apply, if_neg (by simp [hie, hieg]), hh]
          exact if_pos hmem
        · intro j hj hne
          refine noWriteOf j n (Or.inr (Or.inl fun hm => ?_))
          exact hne (Huniq j (List.mem_range.mp hj) hm)
      rw [hval]
      simp
    | callable f =>
      have hval : getSeccompWhitelist COUNT security translator sys_exit
          sys_exit_group idx n = false := by
        refine wl_fold_unchanged security translator sys_exit sys_exit_group idx n
          (List.range COUNT) _ fun j hj => ?_
        by_cases hji : j = i
        · subst hji
          exact noWriteOf j n (Or.inr (Or.inr fun m hm => by rw [hh] at hm; cases hm))
        · exact noWriteOf j n (Or.inr (Or.inl fun hm =>
            hji (Huniq j (List.mem_range.mp hj) hm)))
      rw [hval]
      simp
    | strVal s =>
      have hval : getSeccompWhitelist COUNT security translator sys_exit
          sys_exit_group idx n = false := by
        refine wl_fold_unchanged security translator sys_exit sys_exit_group idx n
          (List.range COUNT) _ fun j hj => ?_
        by_cases hji : j = i
        · subst hji
          exact noWriteOf j n (Or.inr (Or.inr fun m hm => by rw [hh] at hm; cases hm))
        · exact noWriteOf j n (Or.inr (Or.inl fun hm =>
            hji (Huniq j (List.mem_range.mp hj) hm)))
      rw [hval]
      simp
    | other =>
      have hval : getSeccompWhitelist COUNT security translator sys_exit
          sys_exit_group idx n = false := by
        refine wl_fold_unchanged security translator sys_exit sys_exit_group idx n
          (List.range COUNT) _ fun j hj => ?_
        by_cases hji : j = i
        · subst hji
          exact noWriteOf j n (Or.inr (Or.inr fun m hm => by rw [hh] at hm; cases hm))
        · exact noWriteOf j n (Or.inr (Or.inl fun hm =>
            hji (Huniq j (List.mem_range.mp hj) hm)))
      rw [hval]
      simp
  · intro n Honly
    refine wl_fold_unchanged security translator sys_exit sys_exit_group idx n
      (List.range COUNT) _ fun j hj => ?_
    by_cases hm : (some n) ∈ translator j idx
    · exact noWriteOf j n (Or.inl (Honly j (List.mem_range.mp hj) hm))
    · exact noWriteOf j n (Or.inr (Or.inl hm))

/-- Witness for `seccomp_whitelist_spec`: three canonicals with
`sys_exit = 1`, `sys_exit_group = 2`, all mapped to `ALLOW`; native 10 of
canonical 0 is whitelisted, the natives 11 and 12 of `exit`/`exit_group`
stay false, and the unowned native 99 stays false. -/
theorem seccomp_whitelist_spec_witness :
    @getSeccompWhitelist Unit 3
        (fun _ => some (.int ALLOW)) (fun i k => if k = 0 then [some (10 + i)] else [])
        1 2 0 10 = true
    ∧ @getSeccompWhitelist Unit 3
        (fun _ => some (.int ALLOW)) (fun i k => if k = 0 then [some (10 + i)] else [])
        1 2 0 11 = false
    ∧ @getSeccompWhitelist Unit 3
        (fun _ => some (.int ALLOW)) (fun i k => if k = 0 then [some (10 + i)] else [])
        1 2 0 12 = false
    ∧ @getSeccompWhitelist Unit 3
        (fun _ => some (.int ALLOW)) (fun i k => if k = 0 then [some (10 + i)] else [])
        1 2 0 99 = false := by
  have h := @seccomp_whitelist_spec Unit 3
    (fun _ => some (.int ALLOW)) (fun i k => if k = 0 then [some (10 + i)] else [])
    1 2 0
  refine ⟨?_, ?_, ?_, ?_⟩
  · exact (h.1 10 0 (by decide) (by decide) (by decide) (by decide)
      (by decide)).mpr rfl
  · exact h.2 11 (by decide)
  · exact h.2 12 (by decide)
  · exact h.2 99 (by decide)

/-- C10 (the code evaluated at the failing input): a handler that is
neither an int nor callable nor a string makes the policy loop abort with
`TypeError` — the string concatenation in
`raise ValueError('Handler not callable: ' + handler)` fails before the
`ValueError` is built — while a string handler does produce the intended
`ValueError` naming the handler.  In both cases construction aborts before
installing a policy or spawning a child. -/
theorem handler_not_callable_raises :
    @installPolicy Unit [ABI.x64] 1 (fun _ => some .other)
        (fun i k => if i = 0 ∧ k = 1 then [some 7] else [])
      = .error .typeError
    ∧ @installPolicy Unit [ABI.x64] 1 (fun _ => some (.strVal "3.14"))
        (fun i k => if i = 0 ∧ k = 1 then [some 7] else [])
      = .error (.valueError "Handler not callable: 3.14") := by
  constructor <;> rfl

/-- C7: the watchdog worker is started iff the CPU limit is nonzero; on a
wake where the 1-second timed wait on `died` returned false, it kills the
process group and sets `is_tle` exactly when the CPU time exceeds the CPU
limit or the wall-clock time exceeds the wall limit, and otherwise sends
the wake signal (SIGSTOP on FreeBSD, SIGWINCH elsewhere) to the process
group, with the outcome independent of whether signal delivery failed (the
`OSError` is swallowed); when the wait reports `died`, the loop exits. -/
theorem shocker_watchdog_spec (time execT wallT timeL wallL : ℚ)
    (freebsd wf wf' : Bool) :
    (shockerStarted time = true ↔ time ≠ 0)
    ∧ (execT > timeL ∨ wallT > wallL →
        shockerStep false execT wallT timeL wallL freebsd wf = .killAndTle)
    ∧ (¬(execT > timeL ∨ wallT > wallL) →
        shockerStep false execT wallT timeL wallL freebsd wf
          = .wake (if freebsd then .sigstop else .sigwinch)
        ∧ shockerStep false execT wallT timeL wallL freebsd wf
          = shockerStep false execT wallT timeL wallL freebsd wf')
    ∧ shockerStep true execT wallT timeL wallL freebsd wf = .exitLoop := by
  refine ⟨by simp [shockerStarted], fun h => ?_, fun h => ⟨?_, ?_⟩, by simp [shockerStep]⟩
  · simp [shockerStep, if_pos h]
  · simp [shockerStep, if_neg h, wakeSignal]
  · simp [shockerStep, if_neg h]

/-- Witness for `shocker_watchdog_spec`: on Linux with CPU limit 1 and
elapsed CPU time 2 the step kills; with elapsed times below both limits it
sends SIGWINCH regardless of delivery failure. -/
theorem shocker_watchdog_spec_witness :
    ((2 : ℚ) > 1 ∨ (2 : ℚ) > 3)
    ∧ shockerStep false 2 2 1 3 false false = .killAndTle
    ∧ ¬((0 : ℚ) > 1 ∨ (0 : ℚ) > 3)
    ∧ (shockerStep false 0 0 1 3 false false
          = .wake (if false then .sigstop else .sigwinch)
        ∧ shockerStep false 0 0 1 3 false false
          = shockerStep false 0 0 1 3 false true) :=
  ⟨by norm_num,
   (shocker_watchdog_spec 1 2 2 1 3 false false true).2.1 (by norm_num),
   by norm_num,
   (shocker_watchdog_spec 1 0 0 1 3 false false true).2.2.1 (by norm_num)⟩

end Cptbox
